import Mathlib

/-!
Verification of the quantum state manager (`scripts/quantum/quantum-state-manager.py`)
of hyprland-session-manager.

Modelling conventions for the shallow embedding:

* Python JSON-like values are modelled by the inductive type `Json`.
  A Python `dict` is an insertion-ordered association list
  `List (String × Json)`; numbers are modelled as integers (no claim
  depends on float semantics); Python `None` is `Json.null`.
* `json.dumps(data, sort_keys=True)` followed by `hashlib.md5(...).hexdigest()`
  is modelled by `sortKeys`, the canonical (recursively key-sorted) form of
  the value.  Canonical serialization is injective on canonical values, and
  MD5 is used by the program purely as a content fingerprint, so the
  embedding identifies a digest with the canonical value it fingerprints.
* `hyprctl <topic> -j` results are passed in as explicit parameters of type
  `Option (List PyDict)` (or `Option PyDict` for `activewindow`); `none`
  models every adapter failure mode.
* Python statements that can raise `TypeError`/`AttributeError` are modelled
  in `Except String`.
* Python's stable `list.sort` / `sorted` are modelled by
  `List.insertionSort` (stable as well; no theorem below depends on the
  order of ties).
-/

/-- JSON-like Python values.  Objects keep insertion order, like Python
dicts. -/
inductive Json where
  | null : Json
  | bool : Bool → Json
  | num : Int → Json
  | str : String → Json
  | arr : List Json → Json
  | obj : List (String × Json) → Json

mutual
def jeq : Json → Json → Bool
  | .null, .null => true
  | .bool a, .bool b => a == b
  | .num a, .num b => a == b
  | .str a, .str b => a == b
  | .arr a, .arr b => jeqList a b
  | .obj a, .obj b => jeqFields a b
  | _, _ => false

def jeqList : List Json → List Json → Bool
  | [], [] => true
  | a :: as, b :: bs => jeq a b && jeqList as bs
  | _, _ => false

def jeqFields : List (String × Json) → List (String × Json) → Bool
  | [], [] => true
  | p :: ps, q :: qs => p.1 == q.1 && jeq p.2 q.2 && jeqFields ps qs
  | _, _ => false
end

/-- Structural induction principle for `Json` (through the nested lists). -/
theorem Json.recAux {P : Json → Prop}
    (hnull : P .null) (hbool : ∀ b, P (.bool b)) (hnum : ∀ n, P (.num n))
    (hstr : ∀ s, P (.str s))
    (harr : ∀ l, (∀ x ∈ l, P x) → P (.arr l))
    (hobj : ∀ l, (∀ p ∈ l, P p.2) → P (.obj l)) : ∀ j, P j := by
  have key : ∀ n j, sizeOf j ≤ n → P j := by
    intro n
    induction n with
    | zero => intro j h; cases j <;> simp at h
    | succ n ih =>
      intro j hle
      cases j with
      | null => exact hnull
      | bool b => exact hbool b
      | num m => exact hnum m
      | str s => exact hstr s
      | arr l =>
        refine harr l (fun x hx => ih x ?_)
        have h1 : sizeOf x < sizeOf l := List.sizeOf_lt_of_mem hx
        simp at hle; omega
      | obj l =>
        refine hobj l (fun p hp => ih p.2 ?_)
        have h1 : sizeOf p < sizeOf l := List.sizeOf_lt_of_mem hp
        have h2 : sizeOf p.2 < sizeOf p := by
          obtain ⟨k, v⟩ := p; simp
        simp at hle; omega
  exact fun j => key (sizeOf j) j (Nat.le_refl _)

theorem jeqList_iff {l : List Json}
    (h : ∀ x ∈ l, ∀ b, jeq x b = true ↔ x = b) :
    ∀ l', jeqList l l' = true ↔ l = l' := by
  induction l with
  | nil => intro l'; cases l' <;> simp [jeqList]
  | cons a as ih =>
    intro l'
    cases l' with
    | nil => simp [jeqList]
    | cons b bs =>
      simp only [jeqList, Bool.and_eq_true, List.cons.injEq]
      rw [h a (by simp) b, ih (fun x hx => h x (by simp [hx]))]

theorem jeqFields_iff {l : List (String × Json)}
    (h : ∀ p ∈ l, ∀ b, jeq p.2 b = true ↔ p.2 = b) :
    ∀ l', jeqFields l l' = true ↔ l = l' := by
  induction l with
  | nil => intro l'; cases l' <;> simp [jeqFields]
  | cons p ps ih =>
    intro l'
    cases l' with
    | nil => simp [jeqFields]
    | cons q qs =>
      simp only [jeqFields, Bool.and_eq_true, List.cons.injEq, beq_iff_eq]
      rw [h p (by simp) q.2, ih (fun x hx => h x (by simp [hx]))]
      constructor
      · rintro ⟨⟨h1, h2⟩, h3⟩
        exact ⟨Prod.ext h1 h2, h3⟩
      · rintro ⟨h1, h3⟩
        cases h1; exact ⟨⟨rfl, rfl⟩, h3⟩

theorem jeq_iff : ∀ a b, jeq a b = true ↔ a = b := by
  intro a
  induction a using Json.recAux with
  | hnull => intro b; cases b <;> simp [jeq]
  | hbool x => intro b; cases b <;> simp [jeq]
  | hnum x => intro b; cases b <;> simp [jeq]
  | hstr x => intro b; cases b <;> simp [jeq]
  | harr l ih =>
    intro b
    cases b <;> simp [jeq]
    exact jeqList_iff ih _
  | hobj l ih =>
    intro b
    cases b <;> simp [jeq]
    exact jeqFields_iff ih _

instance : DecidableEq Json := fun a b => decidable_of_iff _ (jeq_iff a b)

/-- A Python dict with string keys (insertion ordered). -/
abbrev PyDict := List (String × Json)

/-- `d.get(k)` / `d.get(k, default)` support: first binding of `k`. -/
def dGet (k : String) : List (String × Json) → Option Json
  | [] => none
  | p :: t => if p.1 = k then some p.2 else dGet k t

/-- Key order used by `json.dumps(..., sort_keys=True)`. -/
def keyLe (p q : String × Json) : Prop := p.1 ≤ q.1

instance : DecidableRel keyLe := fun p q => inferInstanceAs (Decidable (p.1 ≤ q.1))

mutual
/-- Canonical form of a value: every object, at every depth, has its fields
sorted by key.  This models `json.dumps(data, sort_keys=True)` composed with
the MD5 fingerprint (see the module docstring). -/
def sortKeys : Json → Json
  | .null => .null
  | .bool b => .bool b
  | .num n => .num n
  | .str s => .str s
  | .arr l => .arr (sortKeysList l)
  | .obj l => .obj (List.insertionSort keyLe (sortKeysPairs l))

def sortKeysList : List Json → List Json
  | [] => []
  | j :: t => sortKeys j :: sortKeysList t

def sortKeysPairs : List (String × Json) → List (String × Json)
  | [] => []
  | p :: t => (p.1, sortKeys p.2) :: sortKeysPairs t
end

/-- `fPair` is the element-wise action of `sortKeys` on an object field. -/
def fPair (p : String × Json) : String × Json := (p.1, sortKeys p.2)

theorem sortKeysList_eq_map (l : List Json) : sortKeysList l = l.map sortKeys := by
  induction l with
  | nil => rfl
  | cons j t ih => simp [sortKeysList, ih]

theorem sortKeysPairs_eq_map (l : List (String × Json)) :
    sortKeysPairs l = l.map fPair := by
  induction l with
  | nil => rfl
  | cons p t ih => simp [sortKeysPairs, fPair, ih]

theorem sortKeys_arr (l : List Json) : sortKeys (.arr l) = .arr (l.map sortKeys) := by
  simp [sortKeys, sortKeysList_eq_map]

theorem sortKeys_obj (l : List (String × Json)) :
    sortKeys (.obj l) = .obj (List.insertionSort keyLe (l.map fPair)) := by
  simp [sortKeys, sortKeysPairs_eq_map]

/-! ### Association-list (Python dict) lemmas -/

/-- All keys of a Python dict are distinct. -/
def keysNodup (l : List (String × Json)) : Prop := (l.map Prod.fst).Nodup

instance (l : List (String × Json)) : Decidable (keysNodup l) :=
  inferInstanceAs (Decidable ((l.map Prod.fst).Nodup))

theorem keys_map_fPair (l : List (String × Json)) :
    (l.map fPair).map Prod.fst = l.map Prod.fst := by
  induction l with
  | nil => rfl
  | cons p t ih => simp [fPair, ih]

theorem dGet_map_fPair (k : String) (l : List (String × Json)) :
    dGet k (l.map fPair) = (dGet k l).map sortKeys := by
  induction l with
  | nil => rfl
  | cons p t ih =>
    by_cases h : p.1 = k <;> simp [dGet, fPair, h, ih]

theorem dGet_eq_some_mem {k : String} {v : Json} {l : List (String × Json)}
    (h : dGet k l = some v) : (k, v) ∈ l := by
  induction l with
  | nil => simp [dGet] at h
  | cons p t ih =>
    by_cases hp : p.1 = k
    · simp [dGet, hp] at h
      subst hp; subst h
      simp
    · simp [dGet, hp] at h
      exact List.mem_cons_of_mem _ (ih h)

theorem mem_dGet {k : String} {v : Json} {l : List (String × Json)}
    (hnd : keysNodup l) (h : (k, v) ∈ l) : dGet k l = some v := by
  induction l with
  | nil => simp at h
  | cons p t ih =>
    unfold keysNodup at hnd
    rw [List.map_cons, List.nodup_cons] at hnd
    rcases List.mem_cons.1 h with h1 | h1
    · subst h1; simp [dGet]
    · have hk : p.1 ≠ k := by
        intro he
        refine hnd.1 ?_
        rw [he]
        exact List.mem_map_of_mem Prod.fst h1
      simp [dGet, hk]
      exact ih hnd.2 h1

theorem dGet_isSome_iff {k : String} {l : List (String × Json)} :
    (dGet k l).isSome = true ↔ k ∈ l.map Prod.fst := by
  induction l with
  | nil => simp [dGet]
  | cons p t ih =>
    by_cases hp : p.1 = k <;> simp [dGet, hp, ih]
    exact fun h => (hp h.symm).elim

theorem dGet_perm {l l' : List (String × Json)} (hp : l.Perm l')
    (hnd : keysNodup l) (k : String) : dGet k l = dGet k l' := by
  have hnd' : keysNodup l' := (hp.map Prod.fst).nodup hnd
  cases h : dGet k l with
  | some v =>
    exact (mem_dGet hnd' (hp.mem_iff.1 (dGet_eq_some_mem h))).symm
  | none =>
    cases h' : dGet k l' with
    | none => rfl
    | some v =>
      have : k ∈ l.map Prod.fst := by
        have := dGet_isSome_iff.1 (by simp [h'] : (dGet k l').isSome = true)
        exact ((hp.map Prod.fst).mem_iff).2 this
      have := dGet_isSome_iff.2 this
      simp [h] at this

/-- The strict key order: used to show sorted dicts with no duplicate keys
are uniquely determined. -/
def keyLt (p q : String × Json) : Prop := p.1 < q.1

instance : IsAntisymm (String × Json) keyLt :=
  ⟨fun _ _ h1 h2 => absurd h1 (lt_asymm h2)⟩

instance : IsTotal (String × Json) keyLe := ⟨fun a b => le_total a.1 b.1⟩

instance : IsTrans (String × Json) keyLe := ⟨fun _ _ _ h1 h2 => le_trans h1 h2⟩

theorem sorted_keyLt_of_sorted_keyLe {l : List (String × Json)}
    (hnd : keysNodup l) (hs : List.Sorted keyLe l) : List.Sorted keyLt l := by
  have hne : l.Pairwise (fun p q => p.1 ≠ q.1) := by
    rw [← List.pairwise_map (f := Prod.fst)]
    exact hnd
  exact (hs.and hne).imp (fun h => lt_of_le_of_ne h.1 h.2)

/-- Two key-distinct permutations of each other sort to the same list. -/
theorem insertionSort_eq_of_perm {l l' : List (String × Json)}
    (hp : l.Perm l') (hnd : keysNodup l) :
    List.insertionSort keyLe l = List.insertionSort keyLe l' := by
  have hperm : (List.insertionSort keyLe l).Perm (List.insertionSort keyLe l') :=
    ((List.perm_insertionSort keyLe l).trans hp).trans
      (List.perm_insertionSort keyLe l').symm
  have hnd1 : keysNodup (List.insertionSort keyLe l) :=
    ((List.perm_insertionSort keyLe l).symm.map Prod.fst).nodup hnd
  have hnd2 : keysNodup (List.insertionSort keyLe l') :=
    (hperm.map Prod.fst).nodup hnd1
  exact List.eq_of_perm_of_sorted hperm
    (sorted_keyLt_of_sorted_keyLe hnd1 (List.sorted_insertionSort keyLe l))
    (sorted_keyLt_of_sorted_keyLe hnd2 (List.sorted_insertionSort keyLe l'))

theorem dGet_insertionSort {l : List (String × Json)} (hnd : keysNodup l)
    (k : String) : dGet k (List.insertionSort keyLe l) = dGet k l :=
  (dGet_perm (List.perm_insertionSort keyLe l)
    (((List.perm_insertionSort keyLe l).symm.map Prod.fst).nodup hnd) k)

/-- Looking up a key in the canonicalized (sorted) field list of an object. -/
theorem dGet_canonical {l : List (String × Json)} (hnd : keysNodup l)
    (k : String) :
    dGet k (List.insertionSort keyLe (l.map fPair)) = (dGet k l).map sortKeys := by
  have hnd' : keysNodup (l.map fPair) := by
    unfold keysNodup
    rw [keys_map_fPair]
    exact hnd
  rw [dGet_insertionSort hnd' k, dGet_map_fPair]

/-! ### The `QuantumState` data model and the checksum engine -/

/-- `_generate_state_checksum(state_data)`:
`hashlib.md5(json.dumps(state_data, sort_keys=True).encode()).hexdigest()`.
The digest is identified with the canonical value it fingerprints (see the
module docstring). -/
def _generate_state_checksum (state_data : Json) : Json := sortKeys state_data

/-- The `QuantumState` dataclass.  Component fields are untyped in Python and
modelled as raw `Json` values; `validation_checksums` is a dict from
component name to digest. -/
structure QuantumState where
  timestamp : String
  session_id : String
  monitor_layouts : Json
  workspace_states : Json
  window_states : Json
  application_contexts : Json
  terminal_sessions : Json
  browser_sessions : Json
  development_environments : Json
  system_state : Json
  validation_checksums : List (String × Json)

/-- `dataclasses.asdict(state)` with the `validation_checksums` entry popped,
i.e. the input of the `"overall"` digest. -/
def stateDictNoChecksums (s : QuantumState) : Json :=
  .obj [("timestamp", .str s.timestamp),
        ("session_id", .str s.session_id),
        ("monitor_layouts", s.monitor_layouts),
        ("workspace_states", s.workspace_states),
        ("window_states", s.window_states),
        ("application_contexts", s.application_contexts),
        ("terminal_sessions", s.terminal_sessions),
        ("browser_sessions", s.browser_sessions),
        ("development_environments", s.development_environments),
        ("system_state", s.system_state)]

/-- `generate_validation_checksums(state)`: one digest per component field,
plus an `"overall"` digest over the whole snapshot minus the checksum map. -/
def generate_validation_checksums (s : QuantumState) : List (String × Json) :=
  [("monitor_layouts", _generate_state_checksum s.monitor_layouts),
   ("workspace_states", _generate_state_checksum s.workspace_states),
   ("window_states", _generate_state_checksum s.window_states),
   ("application_contexts", _generate_state_checksum s.application_contexts),
   ("terminal_sessions", _generate_state_checksum s.terminal_sessions),
   ("browser_sessions", _generate_state_checksum s.browser_sessions),
   ("development_environments", _generate_state_checksum s.development_environments),
   ("system_state", _generate_state_checksum s.system_state),
   ("overall", _generate_state_checksum (stateDictNoChecksums s))]

/-- `_validate_state_checksums(state)`: recompute all digests and compare
with the stored map; a non-`"overall"` entry whose recomputed digest differs
(or is missing), or a differing `"overall"` entry, fails validation. -/
def _validate_state_checksums (state : QuantumState) : Bool :=
  let current_checksums := generate_validation_checksums state
  (state.validation_checksums.all fun p =>
    p.1 == "overall" || decide (dGet p.1 current_checksums = some p.2))
  && decide (dGet "overall" state.validation_checksums
      = dGet "overall" current_checksums)

/-- Setting the checksum field does not change what
`generate_validation_checksums` computes (it never reads that field). -/
theorem generate_validation_checksums_set (s : QuantumState)
    (c : List (String × Json)) :
    generate_validation_checksums { s with validation_checksums := c }
      = generate_validation_checksums s := rfl

/-- C10: stamping a snapshot with its freshly generated checksums always
makes validation succeed, for every snapshot (in particular, it does not
matter what the checksum map held beforehand: the `"overall"` digest
excludes the checksum map from its own input). -/
theorem generate_then_validate (S : QuantumState) :
    _validate_state_checksums
      { S with validation_checksums := generate_validation_checksums S } = true := by
  simp [_validate_state_checksums, generate_validation_checksums, dGet,
    stateDictNoChecksums]

/-! ### C1: tamper detection -/

/-- Python dict assignment `d[k] = v`: replace the binding in place if the
key is present, append otherwise. -/
def setKey (l : List (String × Json)) (k : String) (v : Json) :
    List (String × Json) :=
  match dGet k l with
  | some _ => l.map fun p => if p.1 = k then (k, v) else p
  | none => l ++ [(k, v)]

theorem dGet_append_of_none {k : String} {l m : List (String × Json)}
    (h : dGet k l = none) : dGet k (l ++ m) = dGet k m := by
  induction l with
  | nil => rfl
  | cons p t ih =>
    by_cases hp : p.1 = k <;> simp [dGet, hp] at h ⊢
    · exact ih h

theorem dGet_map_replace {k : String} {v : Json} :
    ∀ {l : List (String × Json)} {w : Json}, dGet k l = some w →
      dGet k (l.map fun p => if p.1 = k then (k, v) else p) = some v := by
  intro l
  induction l with
  | nil => intro w h; simp [dGet] at h
  | cons p t ih =>
    intro w h
    by_cases hp : p.1 = k
    · simp [dGet, hp]
    · simp only [List.map_cons]
      rw [if_neg hp]
      simp only [dGet, hp, if_false] at h ⊢
      exact ih h

theorem dGet_setKey_self (l : List (String × Json)) (k : String) (v : Json) :
    dGet k (setKey l k v) = some v := by
  cases h : dGet k l with
  | none =>
    simp only [setKey, h]
    rw [dGet_append_of_none h]
    simp [dGet]
  | some w =>
    simp only [setKey, h]
    exact dGet_map_replace h

theorem keys_map_replace (k : String) (v : Json) (l : List (String × Json)) :
    ((l.map fun p => if p.1 = k then (k, v) else p).map Prod.fst)
      = l.map Prod.fst := by
  induction l with
  | nil => rfl
  | cons p t ih =>
    by_cases hp : p.1 = k
    · simp only [List.map_cons, ih]
      rw [if_pos hp]
      simp [hp]
    · simp only [List.map_cons, ih]
      rw [if_neg hp]

theorem keys_setKey {l : List (String × Json)} (k : String) (v : Json)
    (hnd : keysNodup l) : keysNodup (setKey l k v) := by
  cases h : dGet k l with
  | some w =>
    simp only [setKey, h]
    unfold keysNodup
    rw [keys_map_replace]
    exact hnd
  | none =>
    simp only [setKey, h]
    unfold keysNodup
    rw [List.map_append]
    refine List.nodup_append.2 ⟨hnd, by simp, ?_⟩
    intro a ha hb
    simp at hb
    subst hb
    have := dGet_isSome_iff.2 ha
    simp [h] at this

theorem checksum_obj_setKey_ne {mf : PyDict} {oldName newName : String}
    (hnd : keysNodup mf) (hname : dGet "name" mf = some (.str oldName))
    (hne : newName ≠ oldName) :
    _generate_state_checksum (.obj (setKey mf "name" (.str newName)))
      ≠ _generate_state_checksum (.obj mf) := by
  intro h
  unfold _generate_state_checksum at h
  rw [sortKeys_obj, sortKeys_obj] at h
  have h2 := Json.obj.inj h
  have e1 : dGet "name"
      (List.insertionSort keyLe ((setKey mf "name" (.str newName)).map fPair))
      = some (.str newName) := by
    rw [dGet_canonical (keys_setKey "name" (.str newName) hnd) "name",
      dGet_setKey_self]
    simp [sortKeys]
  have e2 : dGet "name" (List.insertionSort keyLe (mf.map fPair))
      = some (.str oldName) := by
    rw [dGet_canonical hnd "name", hname]
    simp [sortKeys]
  rw [h2] at e1
  rw [e1] at e2
  injection e2 with e3
  injection e3 with e4
  exact hne e4

theorem checksum_arr_set_ne {ms : List Json} {i : Nat} {a b : Json}
    (hi : ms[i]? = some a)
    (hne : _generate_state_checksum b ≠ _generate_state_checksum a) :
    _generate_state_checksum (.arr (ms.set i b))
      ≠ _generate_state_checksum (.arr ms) := by
  intro h
  unfold _generate_state_checksum at h
  rw [sortKeys_arr, sortKeys_arr] at h
  have h2 := Json.arr.inj h
  have hlen : i < ms.length := (List.getElem?_eq_some_iff.1 hi).1
  have e1 : ((ms.set i b).map sortKeys)[i]? = some (sortKeys b) := by
    rw [List.getElem?_map, List.getElem?_set_self (by simpa using hlen)]
    rfl
  have e2 : (ms.map sortKeys)[i]? = some (sortKeys a) := by
    rw [List.getElem?_map, hi]
    rfl
  rw [h2, e2] at e1
  injection e1 with e3
  exact hne e3.symm

theorem stateDict_keysNodup (s : QuantumState) :
    ∀ l, stateDictNoChecksums s = .obj l → keysNodup l := by
  intro l h
  unfold stateDictNoChecksums at h
  injection h with h2
  subst h2
  unfold keysNodup
  simp

theorem checksum_stateDict_ne {S : QuantumState} {m : Json}
    (hne : _generate_state_checksum m ≠ _generate_state_checksum S.monitor_layouts) :
    _generate_state_checksum (stateDictNoChecksums { S with monitor_layouts := m })
      ≠ _generate_state_checksum (stateDictNoChecksums S) := by
  intro h
  unfold _generate_state_checksum stateDictNoChecksums at h
  rw [sortKeys_obj, sortKeys_obj] at h
  have h2 := Json.obj.inj h
  have hnd1 := stateDict_keysNodup { S with monitor_layouts := m } _ rfl
  have hnd2 := stateDict_keysNodup S _ rfl
  unfold stateDictNoChecksums at hnd1 hnd2
  have e1 := dGet_canonical hnd1 "monitor_layouts"
  have e2 := dGet_canonical hnd2 "monitor_layouts"
  rw [h2] at e1
  rw [e1] at e2
  simp [dGet] at e2
  exact hne e2

/-- Validation fails as soon as one stored non-`"overall"` entry disagrees
with the recomputed digests. -/
theorem validate_false_of_component {S : QuantumState} {k : String} {c : Json}
    (hmem : (k, c) ∈ S.validation_checksums) (hk : ¬ k = "overall")
    (hmis : ¬ dGet k (generate_validation_checksums S) = some c) :
    _validate_state_checksums S = false := by
  have hall : (S.validation_checksums.all fun p =>
      p.1 == "overall"
        || decide (dGet p.1 (generate_validation_checksums S) = some p.2)) = false :=
    List.all_eq_false.2 ⟨(k, c), hmem, by simp [hk, hmis]⟩
  show ((S.validation_checksums.all fun p =>
      p.1 == "overall"
        || decide (dGet p.1 (generate_validation_checksums S) = some p.2))
    && decide (dGet "overall" S.validation_checksums
        = dGet "overall" (generate_validation_checksums S))) = false
  rw [hall]
  rfl

/-- The tampering step of the claim: `state.monitor_layouts[i]["name"] = newName`
performed on a loaded snapshot. -/
def setMonitorName (S : QuantumState) (i : Nat) (newName : String) : QuantumState :=
  match S.monitor_layouts with
  | .arr ms =>
    match ms[i]? with
    | some (.obj mf) =>
        { S with monitor_layouts :=
            Json.arr (ms.set i (.obj (setKey mf "name" (.str newName)))) }
    | _ => S
  | _ => S

/-- C1: For every loaded snapshot whose stored validation_checksums were
generated over its original content, mutating a single field (a monitor's
`"name"`) before re-validating makes `_validate_state_checksums` return
false, and both the `"monitor_layouts"` component digest and the
`"overall"` digest mismatch the stored ones. -/
theorem tamper_detection (S : QuantumState) (ms : List Json) (i : Nat)
    (mf : PyDict) (oldName newName : String)
    (hcs : S.validation_checksums = generate_validation_checksums S)
    (hml : S.monitor_layouts = .arr ms)
    (hmi : ms[i]? = some (.obj mf))
    (hnd : keysNodup mf)
    (hname : dGet "name" mf = some (.str oldName))
    (hne : newName ≠ oldName) :
    _validate_state_checksums (setMonitorName S i newName) = false
    ∧ dGet "monitor_layouts"
        (generate_validation_checksums (setMonitorName S i newName))
        ≠ dGet "monitor_layouts" S.validation_checksums
    ∧ dGet "overall"
        (generate_validation_checksums (setMonitorName S i newName))
        ≠ dGet "overall" S.validation_checksums := by
  have hS' : setMonitorName S i newName
      = { S with monitor_layouts :=
            Json.arr (ms.set i (.obj (setKey mf "name" (.str newName)))) } := by
    simp only [setMonitorName, hml, hmi]
  set ms' := ms.set i (.obj (setKey mf "name" (.str newName))) with hms'
  have cne : _generate_state_checksum (.arr ms')
      ≠ _generate_state_checksum (.arr ms) :=
    checksum_arr_set_ne hmi (checksum_obj_setKey_ne hnd hname hne)
  have cne2 : _generate_state_checksum (.arr ms')
      ≠ _generate_state_checksum S.monitor_layouts := by
    rw [hml]; exact cne
  have hover : _generate_state_checksum
        (stateDictNoChecksums { S with monitor_layouts := .arr ms' })
      ≠ _generate_state_checksum (stateDictNoChecksums S) :=
    checksum_stateDict_ne cne2
  refine ⟨?_, ?_, ?_⟩
  · rw [hS']
    refine validate_false_of_component (k := "monitor_layouts")
      (c := _generate_state_checksum S.monitor_layouts) ?_ (by decide) ?_
    · show _ ∈ S.validation_checksums
      rw [hcs]
      simp [generate_validation_checksums]
    · simp [generate_validation_checksums, dGet]
      exact cne2
  · rw [hS', hcs]
    simp [generate_validation_checksums, dGet]
    exact cne2
  · rw [hS', hcs]
    simp [generate_validation_checksums, dGet]
    exact hover

/-- A tiny concrete snapshot, stamped with its own checksums. -/
def tamperWitnessState : QuantumState :=
  let base : QuantumState := {
    timestamp := "2024-01-01T00:00:00"
    session_id := "quantum_1"
    monitor_layouts := .arr [.obj [("id", .num 1), ("name", .str "eDP-1")]]
    workspace_states := .arr []
    window_states := .arr []
    application_contexts := .arr []
    terminal_sessions := .arr []
    browser_sessions := .arr []
    development_environments := .arr []
    system_state := .obj []
    validation_checksums := [] }
  { base with validation_checksums := generate_validation_checksums base }

theorem tamper_detection_witness :
    _validate_state_checksums (setMonitorName tamperWitnessState 0 "HDMI-A-1") = false
    ∧ dGet "monitor_layouts"
        (generate_validation_checksums (setMonitorName tamperWitnessState 0 "HDMI-A-1"))
        ≠ dGet "monitor_layouts" tamperWitnessState.validation_checksums :=
  let h := tamper_detection tamperWitnessState
    [.obj [("id", .num 1), ("name", .str "eDP-1")]] 0
    [("id", .num 1), ("name", .str "eDP-1")] "eDP-1" "HDMI-A-1"
    rfl rfl rfl (by decide) rfl (by decide)
  ⟨h.1, h.2.1⟩

/-! ### C2: checksum determinism, order-independence and discrimination -/

mutual
/-- Well-formed value: every object, at every depth, has pairwise-distinct
keys — always true of values obtained from Python dicts / parsed JSON. -/
def WFJ : Json → Prop
  | .null => True
  | .bool _ => True
  | .num _ => True
  | .str _ => True
  | .arr l => WFJList l
  | .obj l => keysNodup l ∧ WFJPairs l

def WFJList : List Json → Prop
  | [] => True
  | j :: t => WFJ j ∧ WFJList t

def WFJPairs : List (String × Json) → Prop
  | [] => True
  | p :: t => WFJ p.2 ∧ WFJPairs t
end

theorem WFJList_mem : ∀ {l : List Json}, WFJList l → ∀ {x : Json}, x ∈ l → WFJ x := by
  intro l
  induction l with
  | nil => intro _ x hx; simp at hx
  | cons j t ih =>
    intro h x hx
    rcases List.mem_cons.1 hx with h1 | h1
    · subst h1; exact h.1
    · exact ih h.2 h1

theorem WFJPairs_mem : ∀ {l : List (String × Json)}, WFJPairs l →
    ∀ {p : String × Json}, p ∈ l → WFJ p.2 := by
  intro l
  induction l with
  | nil => intro _ p hp; simp at hp
  | cons q t ih =>
    intro h p hp
    rcases List.mem_cons.1 hp with h1 | h1
    · subst h1; exact h.1
    · exact ih h.2 h1

theorem WFJ_arr_mem {l : List Json} (h : WFJ (.arr l)) {x : Json}
    (hx : x ∈ l) : WFJ x := WFJList_mem h hx

theorem WFJ_obj_nodup {l : List (String × Json)} (h : WFJ (.obj l)) :
    keysNodup l := h.1

theorem WFJ_obj_mem {l : List (String × Json)} (h : WFJ (.obj l))
    {p : String × Json} (hp : p ∈ l) : WFJ p.2 := WFJPairs_mem h.2 hp

/-- Two values carry the same logical content: equal atoms, element-wise
logically-equal arrays, and objects in which the same keys are mapped to
logically equal values — regardless of the order in which the keys were
inserted. -/
inductive LogicalEq : Json → Json → Prop where
  | null : LogicalEq .null .null
  | bool (b : Bool) : LogicalEq (.bool b) (.bool b)
  | num (n : Int) : LogicalEq (.num n) (.num n)
  | str (s : String) : LogicalEq (.str s) (.str s)
  | arr (l₁ l₂ : List Json) (hlen : l₁.length = l₂.length)
      (hval : ∀ (i : Nat) (v w : Json),
        l₁[i]? = some v → l₂[i]? = some w → LogicalEq v w) :
      LogicalEq (.arr l₁) (.arr l₂)
  | obj (l₁ l₂ : List (String × Json))
      (hkeys : ∀ k : String, (dGet k l₁).isSome = (dGet k l₂).isSome)
      (hval : ∀ (k : String) (v w : Json),
        dGet k l₁ = some v → dGet k l₂ = some w → LogicalEq v w) :
      LogicalEq (.obj l₁) (.obj l₂)

theorem mem_iff_dGet {m : List (String × Json)} (hnd : keysNodup m)
    (k : String) (v : Json) : (k, v) ∈ m ↔ dGet k m = some v :=
  ⟨mem_dGet hnd, dGet_eq_some_mem⟩

/-- Soundness: logically equal well-formed values have the same digest. -/
theorem LogicalEq.checksum_eq {a b : Json} (h : LogicalEq a b) :
    WFJ a → WFJ b → sortKeys a = sortKeys b := by
  induction h with
  | null => intro _ _; rfl
  | bool b => intro _ _; rfl
  | num n => intro _ _; rfl
  | str s => intro _ _; rfl
  | arr l₁ l₂ hlen hval ih =>
    intro ha hb
    rw [sortKeys_arr, sortKeys_arr]
    congr 1
    apply List.ext_getElem?
    intro i
    rw [List.getElem?_map, List.getElem?_map]
    cases h1 : l₁[i]? with
    | none =>
      have : l₂[i]? = none := by
        rw [List.getElem?_eq_none_iff] at h1 ⊢
        omega
      rw [this]
    | some v =>
      cases h2 : l₂[i]? with
      | none =>
        rw [List.getElem?_eq_none_iff] at h2
        have := (List.getElem?_eq_some_iff.1 h1).1
        omega
      | some w =>
        have := ih i v w h1 h2 (WFJ_arr_mem ha (List.getElem?_mem h1))
          (WFJ_arr_mem hb (List.getElem?_mem h2))
        simp [this]
  | obj l₁ l₂ hkeys hval ih =>
    intro ha hb
    rw [sortKeys_obj, sortKeys_obj]
    congr 1
    have hnd1 : keysNodup l₁ := WFJ_obj_nodup ha
    have hnd2 : keysNodup l₂ := WFJ_obj_nodup hb
    have hget : ∀ k, dGet k (l₁.map fPair) = dGet k (l₂.map fPair) := by
      intro k
      rw [dGet_map_fPair, dGet_map_fPair]
      cases h1 : dGet k l₁ with
      | none =>
        have : dGet k l₂ = none := by
          have := hkeys k
          rw [h1] at this
          cases h2 : dGet k l₂ with
          | none => rfl
          | some w => rw [h2] at this; simp at this
        rw [this]
      | some v =>
        cases h2 : dGet k l₂ with
        | none =>
          have := hkeys k
          rw [h1, h2] at this
          simp at this
        | some w =>
          have := ih k v w h1 h2
            (WFJ_obj_mem ha (dGet_eq_some_mem h1))
            (WFJ_obj_mem hb (dGet_eq_some_mem h2))
          simp [this]
    have hndm1 : keysNodup (l₁.map fPair) := by
      unfold keysNodup
      rw [keys_map_fPair]
      exact hnd1
    have hndm2 : keysNodup (l₂.map fPair) := by
      unfold keysNodup
      rw [keys_map_fPair]
      exact hnd2
    have hperm : (l₁.map fPair).Perm (l₂.map fPair) := by
      refine (List.perm_ext_iff_of_nodup (hndm1.of_map Prod.fst)
        (hndm2.of_map Prod.fst)).2 ?_
      rintro ⟨k, v⟩
      rw [mem_iff_dGet hndm1, mem_iff_dGet hndm2, hget k]
    exact insertionSort_eq_of_perm hperm hndm1

/-- Completeness: well-formed values with the same digest are logically
equal (canonical serialization is injective up to logical content). -/
theorem logicalEq_of_checksum_eq :
    ∀ a b : Json, sortKeys a = sortKeys b → WFJ a → WFJ b → LogicalEq a b := by
  intro a
  induction a using Json.recAux with
  | hnull =>
    intro b h _ _
    cases b with
    | null => exact .null
    | bool x => simp [sortKeys] at h
    | num x => simp [sortKeys] at h
    | str x => simp [sortKeys] at h
    | arr l => simp [sortKeys] at h
    | obj l => simp [sortKeys] at h
  | hbool y =>
    intro b h _ _
    cases b with
    | bool x => simp [sortKeys] at h; subst h; exact .bool y
    | null => simp [sortKeys] at h
    | num x => simp [sortKeys] at h
    | str x => simp [sortKeys] at h
    | arr l => simp [sortKeys] at h
    | obj l => simp [sortKeys] at h
  | hnum y =>
    intro b h _ _
    cases b with
    | num x => simp [sortKeys] at h; subst h; exact .num y
    | null => simp [sortKeys] at h
    | bool x => simp [sortKeys] at h
    | str x => simp [sortKeys] at h
    | arr l => simp [sortKeys] at h
    | obj l => simp [sortKeys] at h
  | hstr y =>
    intro b h _ _
    cases b with
    | str x => simp [sortKeys] at h; subst h; exact .str y
    | null => simp [sortKeys] at h
    | bool x => simp [sortKeys] at h
    | num x => simp [sortKeys] at h
    | arr l => simp [sortKeys] at h
    | obj l => simp [sortKeys] at h
  | harr l₁ ih =>
    intro b h ha hb
    cases b with
    | arr l₂ =>
      rw [sortKeys_arr, sortKeys_arr] at h
      have hm := Json.arr.inj h
      have hlen : l₁.length = l₂.length := by
        have := congrArg List.length hm
        simpa using this
      refine LogicalEq.arr l₁ l₂ hlen ?_
      intro i v w h1 h2
      have hi : (l₁.map sortKeys)[i]? = (l₂.map sortKeys)[i]? := by rw [hm]
      rw [List.getElem?_map, List.getElem?_map, h1, h2] at hi
      simp at hi
      exact ih v (List.getElem?_mem h1) w hi
        (WFJ_arr_mem ha (List.getElem?_mem h1))
        (WFJ_arr_mem hb (List.getElem?_mem h2))
    | null => simp [sortKeys, sortKeys_arr] at h
    | bool x => simp [sortKeys, sortKeys_arr] at h
    | num x => simp [sortKeys, sortKeys_arr] at h
    | str x => simp [sortKeys, sortKeys_arr] at h
    | obj l => simp [sortKeys_arr, sortKeys_obj] at h
  | hobj l₁ ih =>
    intro b h ha hb
    cases b with
    | obj l₂ =>
      rw [sortKeys_obj, sortKeys_obj] at h
      have hm := Json.obj.inj h
      have hnd1 : keysNodup l₁ := WFJ_obj_nodup ha
      have hnd2 : keysNodup l₂ := WFJ_obj_nodup hb
      have hndm1 : keysNodup (l₁.map fPair) := by
        unfold keysNodup
        rw [keys_map_fPair]
        exact hnd1
      have hndm2 : keysNodup (l₂.map fPair) := by
        unfold keysNodup
        rw [keys_map_fPair]
        exact hnd2
      have hget : ∀ k, (dGet k l₁).map sortKeys = (dGet k l₂).map sortKeys := by
        intro k
        rw [← dGet_map_fPair, ← dGet_map_fPair, ← dGet_insertionSort hndm1 k,
          ← dGet_insertionSort hndm2 k, hm]
      refine LogicalEq.obj l₁ l₂ ?_ ?_
      · intro k
        have := congrArg Option.isSome (hget k)
        simpa using this
      · intro k v w h1 h2
        have hk := hget k
        rw [h1, h2] at hk
        simp at hk
        exact ih (k, v) (dGet_eq_some_mem h1) w hk
          (WFJ_obj_mem ha (dGet_eq_some_mem h1))
          (WFJ_obj_mem hb (dGet_eq_some_mem h2))
    | null => simp [sortKeys, sortKeys_obj] at h
    | bool x => simp [sortKeys, sortKeys_obj] at h
    | num x => simp [sortKeys, sortKeys_obj] at h
    | str x => simp [sortKeys, sortKeys_obj] at h
    | arr l => simp [sortKeys_arr, sortKeys_obj] at h

/-- C2: the checksum routine is deterministic, and on well-formed component
data two values get the same digest exactly when they carry the same
logical content (same keys mapped to the same values, regardless of key
insertion order); in particular, content that differs yields different
digests. -/
theorem checksum_stability (a b : Json) (ha : WFJ a) (hb : WFJ b) :
    _generate_state_checksum a = _generate_state_checksum a
    ∧ (LogicalEq a b ↔ _generate_state_checksum a = _generate_state_checksum b) :=
  ⟨rfl, fun h => h.checksum_eq ha hb, fun h => logicalEq_of_checksum_eq a b h ha hb⟩

theorem checksum_stability_witness :
    _generate_state_checksum (.obj [("b", .num 2), ("a", .num 1)])
      = _generate_state_checksum (.obj [("a", .num 1), ("b", .num 2)]) := by
  have hwa : WFJ (.obj [("b", .num 2), ("a", .num 1)]) := by
    simp [WFJ, WFJPairs, keysNodup]
  have hwb : WFJ (.obj [("a", .num 1), ("b", .num 2)]) := by
    simp [WFJ, WFJPairs, keysNodup]
  have hle : LogicalEq (.obj [("b", .num 2), ("a", .num 1)])
      (.obj [("a", .num 1), ("b", .num 2)]) := by
    refine .obj _ _ ?_ ?_
    · intro k
      by_cases h1 : "b" = k
      · subst h1; simp [dGet]
      · by_cases h2 : "a" = k
        · subst h2; simp [dGet]
        · simp [dGet, h1, h2]
    · intro k v w hv hw
      by_cases h1 : "b" = k
      · subst h1
        simp [dGet] at hv hw
        subst hv; subst hw
        exact .num 2
      · by_cases h2 : "a" = k
        · subst h2
          simp [dGet] at hv hw
          subst hv; subst hw
          exact .num 1
        · simp [dGet, h1, h2] at hv
  exact ((checksum_stability (.obj [("b", .num 2), ("a", .num 1)])
    (.obj [("a", .num 1), ("b", .num 2)]) hwa hwb).2).1 hle

/-! ### Component capturers, parametrized by the hyprctl topic results -/

/-- `d.get(k)`: Python `None` (here `Json.null`) for a missing key. -/
def pyGet (d : PyDict) (k : String) : Json := (dGet k d).getD .null

/-- `d.get(k, default)`. -/
def pyGetD (d : PyDict) (k : String) (dflt : Json) : Json := (dGet k d).getD dflt

/-- `capture_monitor_layouts`: one layout record per entry of the
`monitors` topic (adapter failure or `or []` ⇒ empty list). -/
def capture_monitor_layouts (monitors : Option (List PyDict)) : List Json :=
  (monitors.getD []).map fun monitor => Json.obj [
    ("id", pyGet monitor "id"),
    ("name", pyGet monitor "name"),
    ("description", pyGet monitor "description"),
    ("width", pyGet monitor "width"),
    ("height", pyGet monitor "height"),
    ("refreshRate", pyGet monitor "refreshRate"),
    ("x", pyGet monitor "x"),
    ("y", pyGet monitor "y"),
    ("activeWorkspace", pyGetD monitor "activeWorkspace" (.obj [])),
    ("reserved", pyGetD monitor "reserved" (.arr [])),
    ("scale", pyGetD monitor "scale" (.num 1)),
    ("transform", pyGetD monitor "transform" (.num 0)),
    ("focused", pyGetD monitor "focused" (.bool false)),
    ("dpmsStatus", pyGetD monitor "dpmsStatus" (.bool true))]

/-- `client.get("workspace", {}).get("id")`; Python raises
`AttributeError` when the `workspace` value is not a dict. -/
def clientWorkspaceId (client : PyDict) : Except String Json :=
  match pyGetD client "workspace" (.obj []) with
  | .obj w => .ok (pyGet w "id")
  | _ => .error "AttributeError"

/-- `workspace_id < 0`; Python raises `TypeError` when the id is not a
number (e.g. the key was absent, so the value is `None`). -/
def pyLtZero (j : Json) : Except String Bool :=
  match j with
  | .num n => .ok (decide (n < 0))
  | _ => .error "TypeError"

/-- The lightweight client record embedded in a workspace state. -/
def workspaceClientRecord (client : PyDict) : Json :=
  .obj [("address", pyGet client "address"),
        ("class", pyGet client "class"),
        ("title", pyGet client "title"),
        ("initialClass", pyGet client "initialClass"),
        ("initialTitle", pyGet client "initialTitle")]

/-- The comprehension
`[c for c in clients if c.get("workspace", {}).get("id") == workspace_id]`. -/
def filterClients (workspace_id : Json) : List PyDict → Except String (List PyDict)
  | [] => .ok []
  | c :: t => do
    let i ← clientWorkspaceId c
    let rest ← filterClients workspace_id t
    if i = workspace_id then .ok (c :: rest) else .ok rest

/-- The loop body of `capture_workspace_states` for one workspace. -/
def workspaceRecord (cs : List PyDict) (workspace : PyDict) :
    Except String Json := do
  let workspace_id := pyGet workspace "id"
  let workspace_clients ← filterClients workspace_id cs
  let special ← pyLtZero workspace_id
  pure (Json.obj [
    ("id", workspace_id),
    ("name", pyGet workspace "name"),
    ("monitor", pyGet workspace "monitor"),
    ("monitorID", pyGet workspace "monitorID"),
    ("windows", pyGetD workspace "windows" (.num 0)),
    ("hasfullscreen", pyGetD workspace "hasfullscreen" (.bool false)),
    ("lastwindow", pyGetD workspace "lastwindow" (.str "")),
    ("lastwindowtitle", pyGetD workspace "lastwindowtitle" (.str "")),
    ("clients", .arr (workspace_clients.map workspaceClientRecord)),
    ("persistent", pyGetD workspace "persistent" (.bool false)),
    ("specialWorkspace", .bool special)])

/-- `capture_workspace_states`: joins the `workspaces` and `clients` topics
by workspace id.  Any `TypeError`/`AttributeError` raised inside the loop
propagates (the function has no try/except of its own). -/
def capture_workspace_states (workspaces clients : Option (List PyDict)) :
    Except String (List Json) :=
  let ws := workspaces.getD []
  let cs := clients.getD []
  ws.mapM (workspaceRecord cs)

/-- The window record built for one client by `capture_window_states`;
`active` is `client.get("address") == active_window.get("address")`. -/
def windowRecord (aw : PyDict) (client : PyDict) : Json :=
  Json.obj [
    ("address", pyGet client "address"),
    ("class", pyGet client "class"),
    ("title", pyGet client "title"),
    ("initialClass", pyGet client "initialClass"),
    ("initialTitle", pyGet client "initialTitle"),
    ("pid", pyGet client "pid"),
    ("xwayland", pyGetD client "xwayland" (.bool false)),
    ("pinned", pyGetD client "pinned" (.bool false)),
    ("fullscreen", pyGetD client "fullscreen" (.bool false)),
    ("fullscreenMode", pyGetD client "fullscreenMode" (.num 0)),
    ("fakeFullscreen", pyGetD client "fakeFullscreen" (.bool false)),
    ("floating", pyGetD client "floating" (.bool false)),
    ("monitor", pyGet client "monitor"),
    ("workspace", pyGetD client "workspace" (.obj [])),
    ("at", pyGetD client "at" (.arr [.num 0, .num 0])),
    ("size", pyGetD client "size" (.arr [.num 0, .num 0])),
    ("focusHistoryID", pyGetD client "focusHistoryID" (.num 0)),
    ("active", .bool (decide (pyGet client "address" = pyGet aw "address")))]

/-- `capture_window_states`: one window record per entry of the `clients`
topic, joined with `activewindow` (absent topic ⇒ `or {}` ⇒ empty dict). -/
def capture_window_states (clients : Option (List PyDict))
    (active_window : Option PyDict) : List Json :=
  let cs := clients.getD []
  let aw := active_window.getD []
  cs.map (windowRecord aw)

/-- `Except.ok a >>= f` computes to `f a` (definitional). -/
theorem exbind_ok {ε : Type u} {a b : Type v} (x : a) (f : a → Except ε b) :
    (Except.ok x >>= f) = f x := rfl

/-- Field access on a record (`Json.obj`) value. -/
def jget (j : Json) (k : String) : Option Json :=
  match j with
  | .obj l => dGet k l
  | _ => none

/-! ### C5: workspace capture under an absent `clients` topic -/

/-- C5 counterexample: even with the `clients` topic absent, a workspaces
topic result whose single entry has no `"id"` key makes
`capture_workspace_states` raise (`None < 0` is a `TypeError` in Python)
instead of returning a workspace record, so the unconditional "raises no
exception" claim is false. -/
theorem workspace_capture_raises :
    capture_workspace_states (some [[]]) none = .error "TypeError" := by
  rfl

theorem filterClients_ok {cs : List PyDict}
    (hcl : ∀ c ∈ cs, ∃ wv, pyGetD c "workspace" (.obj []) = .obj wv)
    (wid : Json) : ∃ l, filterClients wid cs = .ok l := by
  induction cs with
  | nil => exact ⟨[], rfl⟩
  | cons c t ih =>
    obtain ⟨wv, hwv⟩ := hcl c (by simp)
    obtain ⟨l, hl⟩ := ih (fun x hx => hcl x (by simp [hx]))
    by_cases hi : pyGet wv "id" = wid
    · exact ⟨c :: l, by simp [filterClients, clientWorkspaceId, hwv, hl, hi, exbind_ok]⟩
    · exact ⟨l, by simp [filterClients, clientWorkspaceId, hwv, hl, hi, exbind_ok]⟩

theorem workspaceRecord_spec {cs : List PyDict} {w : PyDict} {n : Int}
    (hn : dGet "id" w = some (.num n))
    (hcl : ∀ c ∈ cs, ∃ wv, pyGetD c "workspace" (.obj []) = .obj wv) :
    ∃ r, workspaceRecord cs w = .ok r
      ∧ (cs = [] → jget r "clients" = some (.arr [])) := by
  obtain ⟨l, hl⟩ := filterClients_ok hcl (pyGet w "id")
  refine ⟨Json.obj [
    ("id", .num n),
    ("name", pyGet w "name"),
    ("monitor", pyGet w "monitor"),
    ("monitorID", pyGet w "monitorID"),
    ("windows", pyGetD w "windows" (.num 0)),
    ("hasfullscreen", pyGetD w "hasfullscreen" (.bool false)),
    ("lastwindow", pyGetD w "lastwindow" (.str "")),
    ("lastwindowtitle", pyGetD w "lastwindowtitle" (.str "")),
    ("clients", .arr (l.map workspaceClientRecord)),
    ("persistent", pyGetD w "persistent" (.bool false)),
    ("specialWorkspace", .bool (decide (n < 0)))], ?_, ?_⟩
  · have hid : pyGet w "id" = .num n := by simp [pyGet, hn]
    rw [hid] at hl
    simp [workspaceRecord, hid, hl, pyLtZero, exbind_ok]
  · intro hcs
    subst hcs
    have hl0 : l = [] := by
      have h2 := hl
      simp [filterClients] at h2
      exact h2
    subst hl0
    simp [jget, dGet]

/-- The joint specification of `capture_workspace_states` on well-formed
topic data: one record per workspace, and empty embedded client lists when
the `clients` topic was empty. -/
theorem capture_workspace_states_spec (workspaces clients : Option (List PyDict))
    (hid : ∀ w ∈ workspaces.getD [], ∃ n : Int, dGet "id" w = some (.num n))
    (hcl : ∀ c ∈ clients.getD [], ∃ wv, pyGetD c "workspace" (.obj []) = .obj wv) :
    ∃ recs, capture_workspace_states workspaces clients = .ok recs
      ∧ recs.length = (workspaces.getD []).length
      ∧ (clients.getD [] = [] → ∀ r ∈ recs, jget r "clients" = some (.arr [])) := by
  unfold capture_workspace_states
  revert hid
  generalize (workspaces.getD []) = ws
  induction ws with
  | nil => exact fun _ => ⟨[], rfl, rfl, fun _ r hr => by simp at hr⟩
  | cons w t ih =>
    intro hid
    obtain ⟨n, hn⟩ := hid w (by simp)
    obtain ⟨r, hr, hrcl⟩ := workspaceRecord_spec hn hcl
    obtain ⟨recs, hm, hlen, hclts⟩ := ih (fun x hx => hid x (by simp [hx]))
    refine ⟨r :: recs, ?_, by simp [hlen], ?_⟩
    · show (w :: t).mapM (workspaceRecord (clients.getD []))
          = Except.ok (r :: recs)
      rw [List.mapM_cons, hr, exbind_ok,
        show t.mapM (workspaceRecord (clients.getD [])) = Except.ok recs from hm,
        exbind_ok]
      rfl
    · intro hcs x hx
      rcases List.mem_cons.1 hx with h1 | h1
      · subst h1; exact hrcl hcs
      · exact hclts hcs x h1

/-- C5 amended: provided every entry of the workspaces topic carries a
numeric `"id"` (always true of real hyprctl output), an absent — or empty —
`clients` topic still yields one workspace record per workspace, each with
an empty embedded `"clients"` list, and raises no exception. -/
theorem workspace_capture_empty_clients (workspaces clients : Option (List PyDict))
    (hclients : clients = none ∨ clients = some [])
    (hid : ∀ w ∈ workspaces.getD [], ∃ n : Int, dGet "id" w = some (.num n)) :
    ∃ recs, capture_workspace_states workspaces clients = .ok recs
      ∧ recs.length = (workspaces.getD []).length
      ∧ ∀ r ∈ recs, jget r "clients" = some (.arr []) := by
  have hcs : clients.getD [] = [] := by
    rcases hclients with h | h <;> subst h <;> rfl
  obtain ⟨recs, hm, hlen, hcl⟩ := capture_workspace_states_spec workspaces clients
    hid (by rw [hcs]; intro c hc; simp at hc)
  exact ⟨recs, hm, hlen, hcl hcs⟩

theorem workspace_capture_empty_clients_witness :
    ∃ recs, capture_workspace_states
        (some [[("id", .num 1), ("name", .str "1")]]) none = .ok recs
      ∧ recs.length = 1
      ∧ ∀ r ∈ recs, jget r "clients" = some (.arr []) :=
  workspace_capture_empty_clients (some [[("id", .num 1), ("name", .str "1")]])
    none (Or.inl rfl)
    (by intro w hw; simp at hw; subst hw; exact ⟨1, rfl⟩)

/-! ### C4: the compatibility gate -/

/-- Python `len`: defined on sequences and dicts, `TypeError` otherwise. -/
def pyLen (j : Json) : Except String Nat :=
  match j with
  | .arr l => .ok l.length
  | .str s => .ok s.length
  | .obj l => .ok l.length
  | _ => .error "TypeError"

/-- `validate_state_compatibility`: re-captures the live monitor and
workspace state and compares counts against the snapshot's; any exception
inside the function's `try` block is caught and yields `False`.  The
system-state capture performed afterwards is psutil glue and is modelled as
always succeeding (it cannot change the returned value). -/
def validate_state_compatibility
    (monitors workspaces clients : Option (List PyDict))
    (state : QuantumState) : Bool :=
  let body : Except String Bool := do
    let current_monitors := capture_monitor_layouts monitors
    let sm ← pyLen state.monitor_layouts
    if current_monitors.length ≠ sm then
      pure false
    else do
      let current_workspaces ← capture_workspace_states workspaces clients
      let sw ← pyLen state.workspace_states
      if current_workspaces.length < sw then
        pure false
      else
        pure true
  match body with
  | .ok b => b
  | .error _ => false

/-- C4: the gate returns false when the live monitor count differs from the
snapshot's stored monitor-layout count, false when the live workspace count
is below the snapshot's stored workspace count, and true when the monitor
counts match and the live workspace count is at least the stored one —
stated for snapshots whose two compared fields are sequences and for
well-formed live topic data (numeric workspace ids, dict-valued client
`workspace` fields), since a malformed value raises inside the `try` and
also yields false. -/
theorem compatibility_gate
    (monitors workspaces clients : Option (List PyDict))
    (state : QuantumState) (sm sw : List Json)
    (hm : state.monitor_layouts = .arr sm)
    (hw : state.workspace_states = .arr sw)
    (hid : ∀ w ∈ workspaces.getD [], ∃ n : Int, dGet "id" w = some (.num n))
    (hcl : ∀ c ∈ clients.getD [], ∃ wv, pyGetD c "workspace" (.obj []) = .obj wv) :
    ((monitors.getD []).length ≠ sm.length →
      validate_state_compatibility monitors workspaces clients state = false)
    ∧ ((monitors.getD []).length = sm.length →
        (workspaces.getD []).length < sw.length →
        validate_state_compatibility monitors workspaces clients state = false)
    ∧ ((monitors.getD []).length = sm.length →
        sw.length ≤ (workspaces.getD []).length →
        validate_state_compatibility monitors workspaces clients state = true) := by
  obtain ⟨recs, hrecs, hlen, _⟩ :=
    capture_workspace_states_spec workspaces clients hid hcl
  have hmonlen : (capture_monitor_layouts monitors).length
      = (monitors.getD []).length := by
    simp [capture_monitor_layouts]
  refine ⟨?_, ?_, ?_⟩
  · intro hne
    unfold validate_state_compatibility
    rw [hm]
    simp only [pyLen, exbind_ok, hmonlen]
    rw [if_pos hne]
    rfl
  · intro heq hlt
    unfold validate_state_compatibility
    rw [hm, hw]
    simp only [pyLen, exbind_ok, hmonlen]
    rw [if_neg (by omega), hrecs, exbind_ok]
    rw [if_pos (by omega)]
    rfl
  · intro heq hge
    unfold validate_state_compatibility
    rw [hm, hw]
    simp only [pyLen, exbind_ok, hmonlen]
    rw [if_neg (by omega), hrecs, exbind_ok]
    rw [if_neg (by omega)]
    rfl

theorem compatibility_gate_witness :
    validate_state_compatibility (some [[("name", .str "eDP-1")]])
      (some [[("id", .num 1)]]) none
      { timestamp := "", session_id := "s",
        monitor_layouts := .arr [.obj []],
        workspace_states := .arr [],
        window_states := .arr [], application_contexts := .arr [],
        terminal_sessions := .arr [], browser_sessions := .arr [],
        development_environments := .arr [], system_state := .obj [],
        validation_checksums := [] } = true :=
  ((compatibility_gate (some [[("name", .str "eDP-1")]]) (some [[("id", .num 1)]])
    none _ [.obj []] [] rfl rfl
    (by intro w hw; simp at hw; subst hw; exact ⟨1, rfl⟩)
    (by intro c hc; simp at hc)).2.2) rfl (by simp)

/-! ### C6: the active-window flag -/

theorem jget_windowRecord_active (aw client : PyDict) :
    jget (windowRecord aw client) "active"
      = some (.bool (decide (pyGet client "address" = pyGet aw "address"))) := by
  simp [windowRecord, jget, dGet]

/-- C6 counterexample: with `activewindow` absent, a client entry that has
no `"address"` key is nevertheless marked active
(`None == None` is `True` in Python), so "absent activewindow ⇒ no window
is marked active" is false as stated. -/
theorem window_active_absent_counterexample :
    (capture_window_states (some [[]]) none).map (fun r => jget r "active")
      = [some (.bool true)] := by
  rfl

/-- C6 amended: each captured window's `active` flag is exactly the
equality test between its `address` value and the active window's `address`
value; consequently, when `activewindow` is absent, every client whose
`address` value is present and non-null is not marked active (a client with
a missing or null address is still marked active — the counterexample). -/
theorem window_active_flag (clients : Option (List PyDict))
    (aw : Option PyDict) :
    (∀ (i : Nat) (c : PyDict), (clients.getD [])[i]? = some c →
      ∃ r, (capture_window_states clients aw)[i]? = some r
        ∧ jget r "active" = some (.bool
            (decide (pyGet c "address" = pyGet (aw.getD []) "address"))))
    ∧ (aw = none → ∀ (i : Nat) (c : PyDict) (r : Json),
        (clients.getD [])[i]? = some c →
        (capture_window_states clients aw)[i]? = some r →
        pyGet c "address" ≠ .null →
        jget r "active" = some (.bool false)) := by
  constructor
  · intro i c hc
    refine ⟨windowRecord (aw.getD []) c, ?_, jget_windowRecord_active _ _⟩
    simp [capture_window_states, List.getElem?_map, hc]
  · intro hawn i c r hc hr hnull
    subst hawn
    have hr' : (capture_window_states clients none)[i]?
        = some (windowRecord [] c) := by
      simp [capture_window_states, List.getElem?_map, hc]
    rw [hr'] at hr
    injection hr with hr2
    subst hr2
    rw [jget_windowRecord_active]
    have : pyGet [] "address" = .null := rfl
    rw [this]
    simp [hnull]

theorem window_active_flag_witness :
    jget (windowRecord [] [("address", .str "0x1")]) "active"
      = some (.bool false) := by
  refine (window_active_flag (some [[("address", .str "0x1")]]) none).2 rfl 0
    [("address", .str "0x1")] (windowRecord [] [("address", .str "0x1")])
    rfl ?_ (by decide)
  rfl

/-! ### C9: development-environment detection -/

/-- An environment-variable dict (string keys and values). -/
def envGet (k : String) : List (String × String) → Option String
  | [] => none
  | p :: t => if p.1 = k then some p.2 else envGet k t

/-- `os.path.basename` on a POSIX path: the suffix after the final slash
(empty when the path ends in a slash). -/
def pyBasename (s : String) : String :=
  .mk ((s.data.reverse.takeWhile (fun c => c != '/')).reverse)

/-- `_detect_development_environments`: one entry per recognized marker
variable, in the order conda, venv, pyenv, node. -/
def _detect_development_environments
    (env_vars : List (String × String)) : List Json :=
  (match envGet "CONDA_DEFAULT_ENV" env_vars with
   | some v => [Json.obj [("type", .str "conda"), ("name", .str v),
       ("active", .bool true)]]
   | none => [])
  ++ (match envGet "VIRTUAL_ENV" env_vars with
   | some v => [Json.obj [("type", .str "venv"),
       ("name", .str (pyBasename v)), ("path", .str v),
       ("active", .bool true)]]
   | none => [])
  ++ (match envGet "PYENV_VERSION" env_vars with
   | some v => [Json.obj [("type", .str "pyenv"), ("name", .str v),
       ("active", .bool true)]]
   | none => [])
  ++ (match envGet "NODE_ENV" env_vars with
   | some v => [Json.obj [("type", .str "node"), ("environment", .str v),
       ("active", .bool true)]]
   | none => [])

/-- C9 counterexample: the node entry carries an `"environment"` key, not a
`"name"` key, so "each of the conda, venv, pyenv, and node entry kinds
carries a name key" is false as stated. -/
theorem node_entry_has_no_name :
    _detect_development_environments [("NODE_ENV", "production")]
      = [.obj [("type", .str "node"), ("environment", .str "production"),
          ("active", .bool true)]]
    ∧ jget (.obj [("type", .str "node"), ("environment", .str "production"),
          ("active", .bool true)]) "name" = none := ⟨rfl, rfl⟩

/-- C9 amended: every detected entry has one of four fixed shapes —
conda/venv/pyenv entries carry `type`, `name`, `active` (with `path`
present exactly for venv), while the node entry carries `type`,
`environment`, `active` and no `name` key. -/
theorem detect_env_shapes (env_vars : List (String × String)) :
    ∀ e ∈ _detect_development_environments env_vars,
      jget e "active" = some (.bool true)
      ∧ ((∃ v, e = .obj [("type", .str "conda"), ("name", .str v),
            ("active", .bool true)])
        ∨ (∃ v, e = .obj [("type", .str "venv"),
            ("name", .str (pyBasename v)), ("path", .str v),
            ("active", .bool true)])
        ∨ (∃ v, e = .obj [("type", .str "pyenv"), ("name", .str v),
            ("active", .bool true)])
        ∨ (∃ v, e = .obj [("type", .str "node"), ("environment", .str v),
            ("active", .bool true)]))
      ∧ ((jget e "path").isSome ↔ jget e "type" = some (.str "venv"))
      ∧ (jget e "type" = some (.str "node") → jget e "name" = none) := by
  intro e he
  unfold _detect_development_environments at he
  rcases List.mem_append.1 he with h1 | hD
  · rcases List.mem_append.1 h1 with h2 | hC
    · rcases List.mem_append.1 h2 with hA | hB
      · cases hv : envGet "CONDA_DEFAULT_ENV" env_vars with
        | none => rw [hv] at hA; simp at hA
        | some v =>
          rw [hv] at hA
          simp at hA
          subst hA
          exact ⟨by simp [jget, dGet], Or.inl ⟨v, rfl⟩, by simp [jget, dGet],
            by simp [jget, dGet]⟩
      · cases hv : envGet "VIRTUAL_ENV" env_vars with
        | none => rw [hv] at hB; simp at hB
        | some v =>
          rw [hv] at hB
          simp at hB
          subst hB
          exact ⟨by simp [jget, dGet], Or.inr (Or.inl ⟨v, rfl⟩),
            by simp [jget, dGet], by simp [jget, dGet]⟩
    · cases hv : envGet "PYENV_VERSION" env_vars with
      | none => rw [hv] at hC; simp at hC
      | some v =>
        rw [hv] at hC
        simp at hC
        subst hC
        exact ⟨by simp [jget, dGet], Or.inr (Or.inr (Or.inl ⟨v, rfl⟩)),
          by simp [jget, dGet], by simp [jget, dGet]⟩
  · cases hv : envGet "NODE_ENV" env_vars with
    | none => rw [hv] at hD; simp at hD
    | some v =>
      rw [hv] at hD
      simp at hD
      subst hD
      exact ⟨by simp [jget, dGet], Or.inr (Or.inr (Or.inr ⟨v, rfl⟩)),
        by simp [jget, dGet], by simp [jget, dGet]⟩

theorem detect_env_shapes_witness :
    jget (.obj [("type", .str "venv"), ("name", .str (pyBasename "/v/x")),
        ("path", .str "/v/x"), ("active", .bool true)]) "active"
      = some (.bool true) :=
  (detect_env_shapes [("VIRTUAL_ENV", "/v/x")]
    (.obj [("type", .str "venv"), ("name", .str (pyBasename "/v/x")),
      ("path", .str "/v/x"), ("active", .bool true)])
    (by simp [_detect_development_environments, envGet])).1

/-! ### C7: legacy migration -/

/-- `migrate_legacy_state` on an already-parsed legacy artifact (file I/O
stripped); `now_iso` and `now_unix` stand for
`datetime.now().isoformat()` and `int(time.time())`. -/
def migrate_legacy_state (legacy : PyDict) (now_iso : String)
    (now_unix : Nat) : QuantumState :=
  let base : QuantumState := {
    timestamp := now_iso
    session_id := "migrated_" ++ toString now_unix
    monitor_layouts := pyGetD legacy "monitors" (.arr [])
    workspace_states := pyGetD legacy "workspaces" (.arr [])
    window_states := pyGetD legacy "windows" (.arr [])
    application_contexts := pyGetD legacy "applications" (.arr [])
    terminal_sessions := pyGetD legacy "terminals" (.arr [])
    browser_sessions := pyGetD legacy "browsers" (.arr [])
    development_environments := pyGetD legacy "environments" (.arr [])
    system_state := pyGetD legacy "system" (.obj [])
    validation_checksums := [] }
  { base with validation_checksums := generate_validation_checksums base }

/-- C7: migration keeps the legacy `monitors` length, defaults absent keys
to empty sequences (empty map for `system_state`), carries the fresh
session id and timestamp, and its checksum map is recomputed from the
migrated content (never copied from the legacy artifact). -/
theorem migrate_legacy_spec (legacy : PyDict) (now_iso : String)
    (now_unix : Nat) :
    (migrate_legacy_state legacy now_iso now_unix).validation_checksums
      = generate_validation_checksums (migrate_legacy_state legacy now_iso now_unix)
    ∧ (∀ ms, dGet "monitors" legacy = some (.arr ms) →
        pyLen (migrate_legacy_state legacy now_iso now_unix).monitor_layouts
          = .ok ms.length)
    ∧ (dGet "monitors" legacy = none →
        (migrate_legacy_state legacy now_iso now_unix).monitor_layouts = .arr [])
    ∧ (dGet "workspaces" legacy = none →
        (migrate_legacy_state legacy now_iso now_unix).workspace_states = .arr [])
    ∧ (dGet "windows" legacy = none →
        (migrate_legacy_state legacy now_iso now_unix).window_states = .arr [])
    ∧ (dGet "applications" legacy = none →
        (migrate_legacy_state legacy now_iso now_unix).application_contexts = .arr [])
    ∧ (dGet "terminals" legacy = none →
        (migrate_legacy_state legacy now_iso now_unix).terminal_sessions = .arr [])
    ∧ (dGet "browsers" legacy = none →
        (migrate_legacy_state legacy now_iso now_unix).browser_sessions = .arr [])
    ∧ (dGet "environments" legacy = none →
        (migrate_legacy_state legacy now_iso now_unix).development_environments
          = .arr [])
    ∧ (dGet "system" legacy = none →
        (migrate_legacy_state legacy now_iso now_unix).system_state = .obj [])
    ∧ (migrate_legacy_state legacy now_iso now_unix).session_id
        = "migrated_" ++ toString now_unix
    ∧ (migrate_legacy_state legacy now_iso now_unix).timestamp = now_iso := by
  refine ⟨rfl, ?_, ?_, ?_, ?_, ?_, ?_, ?_, ?_, ?_, rfl, rfl⟩
  · intro ms h
    simp [migrate_legacy_state, pyGetD, h, pyLen]
  all_goals intro h
  all_goals simp [migrate_legacy_state, pyGetD, h]

theorem migrate_legacy_spec_witness :
    pyLen (migrate_legacy_state [("monitors", .arr [.obj [], .obj []])]
      "2024-01-01T00:00:00" 17).monitor_layouts = .ok 2 :=
  (migrate_legacy_spec [("monitors", .arr [.obj [], .obj []])]
    "2024-01-01T00:00:00" 17).2.1 [.obj [], .obj []] rfl

/-! ### C3: backup retention -/

/-- A file in the backup directory: its name and its creation time
(`os.path.getctime`). -/
structure BFile where
  name : String
  ctime : Nat
deriving DecidableEq

/-- Python's `str.startswith`: a prefix test on the character sequence. -/
def pyStartsWith (s pre : String) : Bool := pre.data.isPrefixOf s.data

/-- The creation-time key order of `backup_files.sort(key=lambda x: x[1])`. -/
def ctimeLe (a b : BFile) : Prop := a.ctime ≤ b.ctime

instance : DecidableRel ctimeLe :=
  fun a b => inferInstanceAs (Decidable (a.ctime ≤ b.ctime))

/-- `_cleanup_old_backups`: collect the `backup_`-prefixed files, sort them
by creation time ascending, and remove the oldest files in excess of
`max_backups`. -/
def _cleanup_old_backups (dir : List BFile) (max_backups : Nat) : List BFile :=
  let backup_files := List.insertionSort ctimeLe
    (dir.filter fun f => pyStartsWith f.name "backup_")
  if backup_files.length > max_backups then
    let files_to_remove := backup_files.take (backup_files.length - max_backups)
    dir.filter fun f => f ∉ files_to_remove
  else dir

/-- The backup copy written by `_create_backup` for a state file with
basename `base` at time `t`
(`backup_name = f"backup_{os.path.basename(state_path)}_{int(time.time())}"`). -/
def mkBackup (base : String) (t : Nat) : BFile :=
  ⟨"backup_" ++ base ++ "_" ++ toString t, t⟩

/-- `_create_backup`: copy the artifact into the backup directory, then
clean up old backups. -/
def _create_backup (dir : List BFile) (base : String) (t : Nat)
    (max_backups : Nat) : List BFile :=
  _cleanup_old_backups (dir ++ [mkBackup base t]) max_backups

/-- A sequence of saves: each one creates a backup and runs the cleanup. -/
def runSaves (dir : List BFile) (base : String) (times : List Nat)
    (max_backups : Nat) : List BFile :=
  times.foldl (fun d t => _create_backup d base t max_backups) dir

theorem mkBackup_startsWith (base : String) (t : Nat) :
    pyStartsWith (mkBackup base t).name "backup_" = true := by
  unfold pyStartsWith mkBackup
  rw [List.isPrefixOf_iff_prefix]
  show "backup_".data <+: ((("backup_" ++ base) ++ "_") ++ toString t).data
  simp only [String.data_append, List.append_assoc]
  exact List.prefix_append _ _

/-- Zeta-reduced form of `_cleanup_old_backups`. -/
theorem cleanup_eq (dir : List BFile) (K : Nat) :
    _cleanup_old_backups dir K =
      if (List.insertionSort ctimeLe
          (dir.filter fun f => pyStartsWith f.name "backup_")).length > K
      then dir.filter (fun f => f ∉ (List.insertionSort ctimeLe
          (dir.filter fun f => pyStartsWith f.name "backup_")).take
            ((List.insertionSort ctimeLe
              (dir.filter fun f => pyStartsWith f.name "backup_")).length - K))
      else dir := rfl

/-- One save on a directory that holds the backups of the strictly
increasing times `ts`: the new backup is appended and, if the limit is
exceeded, exactly the oldest backup is removed. -/
theorem create_backup_step (base : String) (K : Nat) (ts : List Nat) (t : Nat)
    (hp : (ts ++ [t]).Pairwise (· < ·)) (hlen : ts.length ≤ K) :
    _create_backup (ts.map (mkBackup base)) base t K
      = ((ts ++ [t]).drop (ts.length + 1 - K)).map (mkBackup base) := by
  have hdir : ts.map (mkBackup base) ++ [mkBackup base t]
      = (ts ++ [t]).map (mkBackup base) := by simp
  unfold _create_backup
  rw [hdir, cleanup_eq]
  have hfilter : ((ts ++ [t]).map (mkBackup base)).filter
      (fun f => pyStartsWith f.name "backup_")
      = (ts ++ [t]).map (mkBackup base) := by
    apply List.filter_eq_self.2
    intro f hf
    obtain ⟨s, _, rfl⟩ := List.mem_map.1 hf
    exact mkBackup_startsWith base s
  rw [hfilter]
  have hsorted : List.Sorted ctimeLe ((ts ++ [t]).map (mkBackup base)) := by
    rw [List.Sorted, List.pairwise_map]
    exact hp.imp (fun h => Nat.le_of_lt h)
  rw [hsorted.insertionSort_eq]
  by_cases hK : ((ts ++ [t]).map (mkBackup base)).length > K
  · rw [if_pos hK]
    have hlen2 : ((ts ++ [t]).map (mkBackup base)).length = ts.length + 1 := by
      simp
    have hEq : ts.length = K := by omega
    rw [hlen2]
    have h1 : ts.length + 1 - K = 1 := by omega
    rw [h1]
    cases ts with
    | nil => simp
    | cons s ts' =>
      have hp' : (s :: (ts' ++ [t])).Pairwise (· < ·) := hp
      have htake : ((s :: ts' ++ [t]).map (mkBackup base)).take 1
          = [mkBackup base s] := by simp
      rw [htake]
      have hcons : (s :: ts' ++ [t]).map (mkBackup base)
          = mkBackup base s :: (ts' ++ [t]).map (mkBackup base) := by simp
      rw [hcons]
      have hfilter2 : List.filter (fun f => decide (f ∉ [mkBackup base s]))
          (mkBackup base s :: (ts' ++ [t]).map (mkBackup base))
          = (ts' ++ [t]).map (mkBackup base) := by
        rw [List.filter_cons]
        rw [if_neg (by simp)]
        apply List.filter_eq_self.2
        intro y hy
        obtain ⟨a, ha, rfl⟩ := List.mem_map.1 hy
        have hlt : s < a := (List.pairwise_cons.1 hp').1 a ha
        simp [mkBackup]
        exact Or.inr (by omega)
      rw [hfilter2]
      simp
  · rw [if_neg hK]
    have : ts.length + 1 - K = 0 := by
      simp at hK
      omega
    rw [this, List.drop_zero]

/-- After any sequence of saves at strictly increasing times starting from a
directory that already holds the backups of the strictly increasing prefix
`ts` (at most `K` of them), the directory holds exactly the backups of the
last `K` times. -/
theorem runSaves_eq (base : String) (K : Nat) :
    ∀ (times ts : List Nat), (ts ++ times).Pairwise (· < ·) → ts.length ≤ K →
    runSaves (ts.map (mkBackup base)) base times K
      = ((ts ++ times).drop ((ts ++ times).length - K)).map (mkBackup base) := by
  intro times
  induction times with
  | nil =>
    intro ts hp hlen
    have h0 : (ts ++ ([] : List Nat)).length - K = 0 := by simp; omega
    rw [h0, List.drop_zero]
    simp [runSaves]
  | cons t rest ih =>
    intro ts hp hlen
    have hsplit : ts ++ t :: rest = (ts ++ [t]) ++ rest := List.append_cons ts t rest
    have hpt : (ts ++ [t]).Pairwise (· < ·) := by
      refine List.Pairwise.sublist ?_ hp
      rw [hsplit]
      exact (ts ++ [t]).sublist_append_left rest
    have hstep := create_backup_step base K ts t hpt hlen
    have hrun : runSaves (ts.map (mkBackup base)) base (t :: rest) K
        = runSaves (((ts ++ [t]).drop (ts.length + 1 - K)).map (mkBackup base))
            base rest K := by
      unfold runSaves
      rw [List.foldl_cons, hstep]
    rw [hrun]
    have hd : ts.length + 1 - K ≤ (ts ++ [t]).length := by simp
    have hdropchain : (ts ++ [t]).drop (ts.length + 1 - K) ++ rest
        = ((ts ++ [t]) ++ rest).drop (ts.length + 1 - K) := by
      rw [List.drop_append_of_le_length hd]
    have hp' : ((ts ++ [t]).drop (ts.length + 1 - K) ++ rest).Pairwise (· < ·) := by
      rw [hdropchain]
      refine List.Pairwise.sublist ?_ (hsplit ▸ hp)
      exact ((ts ++ [t]) ++ rest).drop_sublist _
    have hlen' : ((ts ++ [t]).drop (ts.length + 1 - K)).length ≤ K := by
      simp
      omega
    have hih := ih ((ts ++ [t]).drop (ts.length + 1 - K)) hp' hlen'
    rw [hih]
    congr 1
    rw [hdropchain, List.drop_drop]
    rw [show ts ++ t :: rest = (ts ++ [t]) ++ rest from hsplit]
    congr 1
    simp
    omega

/-- C3: after `N` saves with `max_backups = K` and `K < N`, at strictly
increasing creation times, exactly `K` backup files remain, and they are
the backups of the `K` most recent saves (cleanup sorts ascending by
creation time and removes only the oldest files in excess of the limit). -/
theorem backup_retention (base : String) (times : List Nat) (K : Nat)
    (hp : times.Pairwise (· < ·)) (hKN : K < times.length) :
    runSaves [] base times K
      = (times.drop (times.length - K)).map (mkBackup base)
    ∧ (runSaves [] base times K).length = K := by
  have h := runSaves_eq base K times [] (by simpa using hp) (by simp)
  simp only [List.nil_append] at h
  have h2 : runSaves [] base times K
      = (times.drop (times.length - K)).map (mkBackup base) := h
  refine ⟨h2, ?_⟩
  rw [h2]
  simp
  omega

theorem backup_retention_witness :
    (runSaves [] "quantum_state_a.json" [1, 2, 3] 2).length = 2 :=
  (backup_retention "quantum_state_a.json" [1, 2, 3] 2 (by decide)
    (by decide)).2

/-! ### C8: the optimization pass and in-place mutation

Stateful Python code is embedded with an explicit heap: only the dicts the
pass can mutate in place (the `session_data` dicts of application/browser
contexts and the `environment` dicts of terminal sessions) are
heap-allocated; everything else is an immutable value.  `dict.copy()` is a
fresh allocation sharing the inner references, exactly as in Python. -/

/-- A Python runtime value as seen by the optimization pass: an immutable
(or never-mutated) value, or a reference to a mutable dict in the heap. -/
inductive PyVal where
  | prim : Json → PyVal
  | dict : Nat → PyVal
deriving DecidableEq

abbrev PyObj := List (String × PyVal)

/-- The mutable-dict heap with its fresh-allocation counter. -/
structure Heap where
  mem : Nat → PyObj
  fresh : Nat

def lookupPV (k : String) : PyObj → Option PyVal
  | [] => none
  | p :: t => if p.1 = k then some p.2 else lookupPV k t

/-- `d.copy()`: allocate a new dict with the same entries (inner
references shared). -/
def allocCopy (h : Heap) (d : PyObj) : Heap × Nat :=
  ({ mem := fun n => if n = h.fresh then d else h.mem n,
     fresh := h.fresh + 1 }, h.fresh)

/-- Assignment through a reference. -/
def heapSet (h : Heap) (l : Nat) (d : PyObj) : Heap :=
  { h with mem := fun n => if n = l then d else h.mem n }

/-- Python's `str.endswith`: a suffix test on the character sequence. -/
def pyEndsWith (s suf : String) : Bool := suf.data.isSuffixOf s.data

/-- `[os.path.basename(f) for f in fs]`; a non-string element raises
`TypeError` as `os.path.basename` would. -/
def basenameList : List Json → Except String (List Json)
  | [] => .ok []
  | .str s :: t => do
      let rest ← basenameList t
      .ok (.str (pyBasename s) :: rest)
  | _ :: _ => .error "TypeError"

/-- The in-place loop of `_optimize_application_contexts` over the
`session_data` dict: every `*_files` entry holding a list is replaced by
the list of file basenames (paths stripped); other entries are kept. -/
def optimizeSd : PyObj → Except String PyObj
  | [] => .ok []
  | (k, v) :: t => do
      let rest ← optimizeSd t
      if pyEndsWith k "_files" then
        match v with
        | .prim (.arr fs) => do
            let fs' ← basenameList fs
            .ok ((k, .prim (.arr fs')) :: rest)
        | _ => .ok ((k, v) :: rest)
      else
        .ok ((k, v) :: rest)

/-- The allow list of `_optimize_terminal_sessions`. -/
def essential_vars : List String := ["PWD", "TERM", "SHELL", "PATH", "HOME", "USER"]

/-- The in-place body of `_optimize_terminal_sessions` on an `environment`
dict: restrict its `environment_variables` entry to the allow list. -/
def optimizeEnv (env : PyObj) : Except String PyObj :=
  match lookupPV "environment_variables" env with
  | some (.prim (.obj vars)) =>
      .ok (env.map fun p => if p.1 = "environment_variables"
        then (p.1, .prim (.obj (vars.filter fun q => q.1 ∈ essential_vars)))
        else p)
  | some _ => .error "AttributeError"
  | none => .ok env

/-- The in-place body of `_optimize_browser_sessions` on a `session_data`
dict: reduce its `session_file` entry (when present) to a basename;
`os.path.basename` raises on a non-string (e.g. the initial `None`). -/
def optimizeBrowserSd (sd : PyObj) : Except String PyObj :=
  match lookupPV "session_file" sd with
  | some (.prim (.str s)) =>
      .ok (sd.map fun p => if p.1 = "session_file"
        then (p.1, .prim (.str (pyBasename s))) else p)
  | some _ => .error "TypeError"
  | none => .ok sd

/-- One loop iteration shared by the three per-family optimizers: shallow
copy of the outer dict, then an in-place rewrite of the single referenced
inner dict selected by `key` (when present); `strict` distinguishes the
application-context pass (an explicit `isinstance(..., dict)` guard) from
the terminal/browser passes (which operate on the value directly and raise
on a non-dict). -/
def optOneGeneric (key : String) (g : PyObj → Except String PyObj)
    (strict : Bool) (h : Heap) (loc : Nat) : Except String (Heap × Nat) :=
  let d := h.mem loc
  let (h1, newLoc) := allocCopy h d
  match lookupPV key d with
  | some (.dict inner) => do
      let d' ← g (h1.mem inner)
      .ok (heapSet h1 inner d', newLoc)
  | some (.prim _) =>
      if strict then .error "TypeError" else .ok (h1, newLoc)
  | none => .ok (h1, newLoc)

/-- Run one per-family optimizer over a list of outer-dict references,
collecting the copies (`optimized.append(...)`). -/
def optPassList (one : Heap → Nat → Except String (Heap × Nat)) :
    Heap → List Nat → Except String (Heap × List Nat)
  | h, [] => .ok (h, [])
  | h, loc :: t => do
      let (h1, newLoc) ← one h loc
      let (h2, rest) ← optPassList one h1 t
      .ok (h2, newLoc :: rest)

/-- `_optimize_application_contexts`. -/
def _optimize_application_contexts (h : Heap) (contexts : List Nat) :
    Except String (Heap × List Nat) :=
  optPassList (optOneGeneric "session_data" optimizeSd false) h contexts

/-- `_optimize_terminal_sessions`. -/
def _optimize_terminal_sessions (h : Heap) (sessions : List Nat) :
    Except String (Heap × List Nat) :=
  optPassList (optOneGeneric "environment" optimizeEnv true) h sessions

/-- `_optimize_browser_sessions`. -/
def _optimize_browser_sessions (h : Heap) (sessions : List Nat) :
    Except String (Heap × List Nat) :=
  optPassList (optOneGeneric "session_data" optimizeBrowserSd true) h sessions

/-- The snapshot as seen by the optimization pass: the three optimized
components hold references to mutable context/session dicts, the other
fields are plain values. -/
structure QuantumStateH where
  timestamp : String
  session_id : String
  monitor_layouts : Json
  workspace_states : Json
  window_states : Json
  application_contexts : List Nat
  terminal_sessions : List Nat
  browser_sessions : List Nat
  development_environments : Json
  system_state : Json
  validation_checksums : List (String × Json)

/-- `optimize_state_capture`: the input snapshot when optimization is
disabled, otherwise a new `QuantumState` instance whose three session
components have been run through the per-family optimizers. -/
def optimize_state_capture (performance_optimization : Bool) (h : Heap)
    (state : QuantumStateH) : Except String (Heap × QuantumStateH) :=
  if ¬ performance_optimization then .ok (h, state)
  else do
    let (h1, apps) ← _optimize_application_contexts h state.application_contexts
    let (h2, terms) ← _optimize_terminal_sessions h1 state.terminal_sessions
    let (h3, brows) ← _optimize_browser_sessions h2 state.browser_sessions
    .ok (h3, { state with
      application_contexts := apps
      terminal_sessions := terms
      browser_sessions := brows })

/-- A one-context heap: location 0 holds an application-context dict whose
`session_data` is the dict at location 1. -/
def optHeap0 : Heap :=
  { mem := fun n =>
      if n = 0 then [("class", .prim (.str "code")), ("session_data", .dict 1)]
      else if n = 1 then
        [("open_files", .prim (.arr [.str "/home/u/project/main.py"]))]
      else []
    fresh := 2 }

def optState0 : QuantumStateH :=
  { timestamp := "2024-01-01T00:00:00"
    session_id := "quantum_1"
    monitor_layouts := .arr []
    workspace_states := .arr []
    window_states := .arr []
    application_contexts := [0]
    terminal_sessions := []
    browser_sessions := []
    development_environments := .arr []
    system_state := .obj []
    validation_checksums := [] }

/-- C8 counterexample: with optimization enabled, after
`optimize_state_capture` the input snapshot's nested `session_data` dict
(heap location 1) no longer holds its original value — `context.copy()` is
shallow, so the pass rewrote the shared dict in place. -/
theorem optimize_mutates_input :
    (optimize_state_capture true optHeap0 optState0).map (fun p => p.1.mem 1)
      = .ok [("open_files", .prim (.arr [.str "main.py"]))]
    ∧ optHeap0.mem 1
        = [("open_files", .prim (.arr [.str "/home/u/project/main.py"]))]
    ∧ ([("open_files", PyVal.prim (.arr [.str "main.py"]))] : PyObj)
        ≠ optHeap0.mem 1 := by
  refine ⟨?_, rfl, by decide⟩
  rfl

/-- The inner-dict reference a pass mutates for a given outer dict. -/
def innerRef (key : String) (h : Heap) (loc : Nat) : Option Nat :=
  match lookupPV key (h.mem loc) with
  | some (.dict i) => some i
  | _ => none

theorem optOneGeneric_eq (key : String) (g : PyObj → Except String PyObj)
    (strict : Bool) (h : Heap) (loc : Nat) :
    optOneGeneric key g strict h loc =
      match lookupPV key (h.mem loc) with
      | some (.dict inner) => do
          let d' ← g ((allocCopy h (h.mem loc)).1.mem inner)
          .ok (heapSet (allocCopy h (h.mem loc)).1 inner d',
               (allocCopy h (h.mem loc)).2)
      | some (.prim _) =>
          if strict then .error "TypeError"
          else .ok ((allocCopy h (h.mem loc)).1, (allocCopy h (h.mem loc)).2)
      | none =>
          .ok ((allocCopy h (h.mem loc)).1, (allocCopy h (h.mem loc)).2) := rfl

theorem optOneGeneric_spec (key : String) (g : PyObj → Except String PyObj)
    (strict : Bool) (h : Heap) (loc : Nat)
    (hloc : loc < h.fresh)
    (hinner : ∀ i, innerRef key h loc = some i → i < h.fresh)
    (hg : ∀ i, innerRef key h loc = some i → ∃ d', g (h.mem i) = .ok d')
    (hstrict : strict = true → ∀ v, lookupPV key (h.mem loc) ≠ some (.prim v)) :
    ∃ h2, optOneGeneric key g strict h loc = .ok (h2, h.fresh)
      ∧ h2.fresh = h.fresh + 1
      ∧ h2.mem h.fresh = h.mem loc
      ∧ (∀ i, innerRef key h loc = some i →
          ∃ d', g (h.mem i) = .ok d' ∧ h2.mem i = d')
      ∧ (∀ n, n < h.fresh → (∀ i, innerRef key h loc = some i → n ≠ i) →
          h2.mem n = h.mem n) := by
  cases hkey : lookupPV key (h.mem loc) with
  | none =>
    refine ⟨(allocCopy h (h.mem loc)).1, ?_, rfl, ?_, ?_, ?_⟩
    · rw [optOneGeneric_eq, hkey]
      rfl
    · simp [allocCopy]
    · intro i hi
      simp [innerRef, hkey] at hi
    · intro n hn _
      simp only [allocCopy]
      rw [if_neg (by omega)]
  | some pv =>
    cases pv with
    | prim v =>
      cases strict with
      | true => exact absurd hkey (hstrict rfl v)
      | false =>
        refine ⟨(allocCopy h (h.mem loc)).1, ?_, rfl, ?_, ?_, ?_⟩
        · rw [optOneGeneric_eq, hkey]
          rfl
        · simp [allocCopy]
        · intro i hi
          simp [innerRef, hkey] at hi
        · intro n hn _
          simp only [allocCopy]
          rw [if_neg (by omega)]
    | dict i =>
      have hri : innerRef key h loc = some i := by simp [innerRef, hkey]
      obtain ⟨d', hd'⟩ := hg i hri
      have hilt : i < h.fresh := hinner i hri
      refine ⟨heapSet (allocCopy h (h.mem loc)).1 i d', ?_, rfl, ?_, ?_, ?_⟩
      · rw [optOneGeneric_eq, hkey]
        have hmi : (allocCopy h (h.mem loc)).1.mem i = h.mem i :=
          if_neg (by omega)
        show (g ((allocCopy h (h.mem loc)).1.mem i) >>= fun e =>
            Except.ok (heapSet (allocCopy h (h.mem loc)).1 i e,
              (allocCopy h (h.mem loc)).2)) = _
        rw [hmi, hd', exbind_ok]
        rfl
      · show (if h.fresh = i then d'
            else (allocCopy h (h.mem loc)).1.mem h.fresh) = h.mem loc
        rw [if_neg (by omega)]
        exact if_pos rfl
      · intro i' hi'
        rw [hri] at hi'
        injection hi' with hi2
        subst hi2
        refine ⟨d', hd', ?_⟩
        simp [heapSet]
      · intro n hn hni
        have hne1 : n ≠ i := hni i hri
        simp only [heapSet, allocCopy]
        rw [if_neg hne1, if_neg (by omega)]

/-- C8 (amended): each per-family optimization pass — the combinator shared
by `_optimize_application_contexts`, `_optimize_terminal_sessions` and
`_optimize_browser_sessions` — returns fresh outer copies of the context
dicts (separate instances holding the same entries as the inputs), but the
nested dict selected by the pass key (`session_data` / `environment`) is
rewritten in place through the shared reference, because `context.copy()` is
shallow. Hence the input snapshot's nested data does NOT keep its original
value; only heap locations that are not such nested references are left
unchanged. -/
theorem optimize_pass_spec (key : String) (g : PyObj → Except String PyObj)
    (strict : Bool) :
    ∀ (h : Heap) (locs : List Nat),
    (∀ loc ∈ locs, loc < h.fresh) →
    (∀ loc ∈ locs, ∀ i, innerRef key h loc = some i → i < h.fresh) →
    (∀ loc ∈ locs, ∀ l ∈ locs, ∀ i, innerRef key h l = some i → loc ≠ i) →
    List.Pairwise (fun a b => ∀ i j, innerRef key h a = some i →
        innerRef key h b = some j → i ≠ j) locs →
    (∀ loc ∈ locs, ∀ i, innerRef key h loc = some i →
        ∃ d, g (h.mem i) = .ok d) →
    (strict = true → ∀ loc ∈ locs, ∀ v,
        lookupPV key (h.mem loc) ≠ some (PyVal.prim v)) →
    ∃ h2 outs,
      optPassList (optOneGeneric key g strict) h locs = .ok (h2, outs)
      ∧ outs.length = locs.length
      ∧ (∀ o ∈ outs, h.fresh ≤ o)
      ∧ (∀ (j loc : Nat), locs[j]? = some loc →
          ∃ o, outs[j]? = some o ∧ h2.mem o = h.mem loc)
      ∧ (∀ loc ∈ locs, ∀ i, innerRef key h loc = some i →
          ∃ d, g (h.mem i) = .ok d ∧ h2.mem i = d)
      ∧ (∀ n, n < h.fresh →
          (∀ loc ∈ locs, ∀ i, innerRef key h loc = some i → n ≠ i) →
          h2.mem n = h.mem n)
      ∧ h.fresh ≤ h2.fresh := by
  intro h locs
  induction locs generalizing h with
  | nil =>
    intro _ _ _ _ _ _
    refine ⟨h, [], rfl, rfl, by simp, ?_, by simp, fun n _ _ => rfl, le_refl _⟩
    intro j loc hj
    simp at hj
  | cons loc t ih =>
    intro hlt hinner hsep hpair hg hstrict
    obtain ⟨hhead, htail⟩ := List.pairwise_cons.1 hpair
    obtain ⟨h1, hone, hfr, hcopy, hmut, hframe1⟩ :=
      optOneGeneric_spec key g strict h loc
        (hlt loc (List.mem_cons_self loc t))
        (hinner loc (List.mem_cons_self loc t))
        (fun i hi => (hg loc (List.mem_cons_self loc t) i hi).imp
          (fun d hd => hd))
        (fun hs v => hstrict hs loc (List.mem_cons_self loc t) v)
    have hmem_t : ∀ l ∈ t, h1.mem l = h.mem l := by
      intro l hl
      refine hframe1 l (hlt l (List.mem_cons_of_mem loc hl)) ?_
      intro i hi
      exact hsep l (List.mem_cons_of_mem loc hl) loc
        (List.mem_cons_self loc t) i hi
    have hinner_t : ∀ l ∈ t, innerRef key h1 l = innerRef key h l := by
      intro l hl
      unfold innerRef
      rw [hmem_t l hl]
    have hmem_inner_t : ∀ l ∈ t, ∀ i, innerRef key h l = some i →
        h1.mem i = h.mem i := by
      intro l hl i hi
      refine hframe1 i (hinner l (List.mem_cons_of_mem loc hl) i hi) ?_
      intro j hj
      exact (hhead l hl j i hj hi).symm
    obtain ⟨h2, outs, hrunt, hlen, hfresh_out, hidx, hmut2, hframe2, hmono⟩ :=
      ih h1
        (fun l hl => by rw [hfr]
                        exact Nat.lt_succ_of_lt (hlt l (List.mem_cons_of_mem loc hl)))
        (fun l hl i hi => by rw [hfr]
                             rw [hinner_t l hl] at hi
                             exact Nat.lt_succ_of_lt
                               (hinner l (List.mem_cons_of_mem loc hl) i hi))
        (fun l hl l2 hl2 i hi => by rw [hinner_t l2 hl2] at hi
                                    exact hsep l (List.mem_cons_of_mem loc hl)
                                      l2 (List.mem_cons_of_mem loc hl2) i hi)
        (by refine htail.imp_of_mem ?_
            intro a b ha hb hr i j hi hj
            rw [hinner_t a ha] at hi
            rw [hinner_t b hb] at hj
            exact hr i j hi hj)
        (fun l hl i hi => by rw [hinner_t l hl] at hi
                             rw [hmem_inner_t l hl i hi]
                             exact hg l (List.mem_cons_of_mem loc hl) i hi)
        (fun hs l hl v => by rw [show lookupPV key (h1.mem l)
                                   = lookupPV key (h.mem l) from by rw [hmem_t l hl]]
                             exact hstrict hs l (List.mem_cons_of_mem loc hl) v)
    refine ⟨h2, h.fresh :: outs, ?_, ?_, ?_, ?_, ?_, ?_, ?_⟩
    · simp only [optPassList, hone, exbind_ok]
      rw [hrunt]
      simp only [exbind_ok]
    · simp [hlen]
    · intro o ho
      rcases List.mem_cons.1 ho with h0 | h0
      · omega
      · have := hfresh_out o h0
        omega
    · intro j loc2 hj
      cases j with
      | zero =>
        simp only [List.getElem?_cons_zero] at hj
        injection hj with hj2
        subst hj2
        refine ⟨h.fresh, by simp, ?_⟩
        have hstep : h2.mem h.fresh = h1.mem h.fresh := by
          refine hframe2 h.fresh (by omega) ?_
          intro l hl i hi
          rw [hinner_t l hl] at hi
          have := hinner l (List.mem_cons_of_mem _ hl) i hi
          omega
        rw [hstep, hcopy]
      | succ j2 =>
        simp only [List.getElem?_cons_succ] at hj
        obtain ⟨o, ho, hmem⟩ := hidx j2 loc2 hj
        refine ⟨o, by simpa using ho, ?_⟩
        rw [hmem]
        exact hmem_t loc2 (List.getElem?_mem hj)
    · intro l hl i hi
      rcases List.mem_cons.1 hl with h0 | h0
      · subst h0
        obtain ⟨d, hd, hset⟩ := hmut i hi
        refine ⟨d, hd, ?_⟩
        have hstep : h2.mem i = h1.mem i := by
          refine hframe2 i ?_ ?_
          · have := hinner l (List.mem_cons_self l t) i hi
            omega
          · intro l2 hl2 j hj
            rw [hinner_t l2 hl2] at hj
            exact hhead l2 hl2 i j hi hj
        rw [hstep, hset]
      · obtain ⟨d, hd, hset⟩ := hmut2 l h0 i
          (by rw [hinner_t l h0]; exact hi)
        rw [hmem_inner_t l h0 i hi] at hd
        exact ⟨d, hd, hset⟩
    · intro n hn hni
      have hstep : h2.mem n = h1.mem n := by
        refine hframe2 n (by omega) ?_
        intro l hl i hi
        rw [hinner_t l hl] at hi
        exact hni l (List.mem_cons_of_mem loc hl) i hi
      rw [hstep]
      exact hframe1 n hn (fun i hi => hni loc (List.mem_cons_self loc t) i hi)
    · omega

theorem optimize_pass_spec_witness :
    ∃ h2 outs,
      optPassList (optOneGeneric "session_data" optimizeSd false)
          optHeap0 [0] = .ok (h2, outs)
      ∧ outs.length = [0].length
      ∧ (∀ o ∈ outs, optHeap0.fresh ≤ o)
      ∧ (∀ (j loc : Nat), [0][j]? = some loc →
          ∃ o, outs[j]? = some o ∧ h2.mem o = optHeap0.mem loc)
      ∧ (∀ loc ∈ [0], ∀ i,
          innerRef "session_data" optHeap0 loc = some i →
          ∃ d, optimizeSd (optHeap0.mem i) = .ok d ∧ h2.mem i = d)
      ∧ (∀ n, n < optHeap0.fresh →
          (∀ loc ∈ [0], ∀ i,
            innerRef "session_data" optHeap0 loc = some i → n ≠ i) →
          h2.mem n = optHeap0.mem n)
      ∧ optHeap0.fresh ≤ h2.fresh :=
  optimize_pass_spec "session_data" optimizeSd false optHeap0 [0]
    (by decide)
    (by intro loc hl i hi
        simp only [List.mem_singleton] at hl
        subst hl
        rw [show innerRef "session_data" optHeap0 0 = some 1 from rfl] at hi
        injection hi with h2
        rw [← h2]
        decide)
    (by intro loc hl l hll i hi
        simp only [List.mem_singleton] at hl hll
        subst hl
        subst hll
        rw [show innerRef "session_data" optHeap0 0 = some 1 from rfl] at hi
        injection hi with h2
        rw [← h2]
        decide)
    (by simp)
    (by intro loc hl i hi
        simp only [List.mem_singleton] at hl
        subst hl
        rw [show innerRef "session_data" optHeap0 0 = some 1 from rfl] at hi
        injection hi with h2
        rw [← h2]
        exact ⟨[("open_files", .prim (.arr [.str "main.py"]))], rfl⟩)
    (by intro hcon
        simp at hcon)
